import Mathlib

/-!
# Verification of the Frame supervision engine (clean-cpanel-plugin)

Shallow embedding, in Lean 4, of the parts of the Rust `manager` crate that
the specification's claims are about:

* the persistent port registry and the port allocator
  (`src/manager/src/port/registry.rs`, `src/manager/src/port/mod.rs`),
* the instance lifecycle operations (`src/manager/src/instance/mod.rs`),
* the orchestration layer (`src/manager/src/manager.rs`),
* the health-monitor tick (`src/manager/src/health/mod.rs`),
* configuration validation (`src/manager/src/config/mod.rs`).

Rust `HashMap<String, u16>` values are embedded as association lists with
unique keys; `u16` ports become `Nat` (no arithmetic in the embedded code can
overflow 16 bits beyond what the range bounds already enforce); effects that
occur outside the data structures (the OS-level port probe, process spawning,
health probes, restart outcomes, the on-disk filesystem) are passed in as
explicit oracle functions or rendered as explicit operation traces, so every
code path of the source is represented deterministically.
-/

namespace Frame

/-! ## Association-list map primitives (embedding of `HashMap<String, u16>`) -/

/-- Lookup in an association list; embeds `HashMap::get`. -/
def lookupA {α : Type} : List (String × α) → String → Option α
  | [], _ => none
  | (k, v) :: rest, u => if k = u then some v else lookupA rest u

/-- Insert-or-replace; embeds `HashMap::insert` (unique keys: the first
entry with the key is replaced in place, a fresh key is appended). -/
def mapInsert {α : Type} (u : String) (p : α) :
    List (String × α) → List (String × α)
  | [] => [(u, p)]
  | (k, v) :: rest => if k = u then (u, p) :: rest else (k, v) :: mapInsert u p rest

/-- Remove the entry for a key; embeds `HashMap::remove` (unique keys). -/
def mapErase {α : Type} (u : String) (l : List (String × α)) :
    List (String × α) :=
  l.filter (fun kv => kv.1 ≠ u)

/-- The values of the map; embeds `HashMap::values`. -/
def valuesA {α : Type} (l : List (String × α)) : List α :=
  l.map (fun kv => kv.2)

/-- The keys of the map. -/
def keysA {α : Type} (l : List (String × α)) : List String :=
  l.map (fun kv => kv.1)

/-! ## Port registry (`port/registry.rs`)

The `path` field (used only by `save`) is kept out of the state; the
filesystem effect of `save` is modelled separately as a trace of filesystem
operations (`savePlan`) and, inside the allocator, as the ordered list of
registry snapshots persisted (`saves`). -/

/-- The persistent port registry: `allocated : HashMap<String, u16>` and
`released : Vec<u16>` (`PortRegistry` in `port/registry.rs`). -/
structure PortRegistry where
  allocated : List (String × Nat)
  released : List Nat
  deriving Repr, DecidableEq

/-- The empty registry (`PortRegistry::load` on an absent file, ignoring the
default range which lives in the allocator's fields here). -/
def PortRegistry.empty : PortRegistry := ⟨[], []⟩

/-- `PortRegistry::get_port`: non-mutating lookup. -/
def PortRegistry.get_port (reg : PortRegistry) (username : String) : Option Nat :=
  lookupA reg.allocated username

/-- `PortRegistry::allocate`: fails if the port is already a value of
`allocated`; otherwise removes it from `released` (`Vec::retain`) and inserts
the new entry. -/
def PortRegistry.allocate (reg : PortRegistry) (username : String) (port : Nat) :
    Except String PortRegistry :=
  if port ∈ valuesA reg.allocated then
    Except.error ("Port " ++ toString port ++ " is already allocated")
  else
    Except.ok
      { allocated := mapInsert username port reg.allocated
        released := reg.released.filter (fun p => p ≠ port) }

/-- `PortRegistry::release`: removes the user's entry and appends the freed
port to `released` unless already present; errors when the user has no
allocation. -/
def PortRegistry.release (reg : PortRegistry) (username : String) :
    Except String PortRegistry :=
  match lookupA reg.allocated username with
  | some port =>
      Except.ok
        { allocated := mapErase username reg.allocated
          released :=
            if port ∈ reg.released then reg.released
            else reg.released ++ [port] }
  | none => Except.error ("No port allocated for user: " ++ username)

/-- `PortRegistry::pop_released`: `Vec::pop` takes the LAST element (the most
recently released port). Returns the popped port and the remaining pool. -/
def PortRegistry.pop_released (reg : PortRegistry) : Option Nat × List Nat :=
  match reg.released.getLast? with
  | none => (none, reg.released)
  | some p => (some p, reg.released.dropLast)

/-! ## Port allocator (`port/mod.rs`)

`PortAllocator::allocate` holds the registry write lock for the whole
read-modify-persist cycle, so one sequential function captures it. The
OS-level probe `is_port_in_use` (a `TcpListener::bind` attempt) is an oracle
`inUse : Nat → Bool`; every port actually probed is recorded in `probes`, and
every `registry.save()` call is recorded as a snapshot in `saves`. -/

/-- Result of one `PortAllocator::allocate` / `find_available_port` style
operation: the returned value, the registry afterwards, the snapshots
persisted by `save()` in order, and the ports probed at OS level in order. -/
structure AllocOut where
  res : Except String Nat
  reg : PortRegistry
  saves : List PortRegistry
  probes : List Nat
  deriving Repr

/-- The scan loop inside `PortAllocator::find_available_port`: walk the
candidate ports in order; skip a port already in `allocated.values()` without
probing it; probe the rest (`is_port_in_use`) and return the first free one.
Returns the result together with the list of ports probed. -/
def scanPorts (vals : List Nat) (inUse : Nat → Bool) :
    List Nat → Except String Nat × List Nat
  | [] => (Except.error "No available ports in range", [])
  | p :: rest =>
      if p ∈ vals then scanPorts vals inUse rest
      else if inUse p then
        let s := scanPorts vals inUse rest
        (s.1, p :: s.2)
      else (Except.ok p, [p])

/-- `PortAllocator::find_available_port`: scan `range_start..=range_end` in
ascending order. -/
def find_available_port (rangeStart rangeEnd : Nat) (inUse : Nat → Bool)
    (reg : PortRegistry) : Except String Nat × List Nat :=
  scanPorts (valuesA reg.allocated) inUse
    (List.range' rangeStart (rangeEnd + 1 - rangeStart))

/-- `PortAllocator::allocate`:
1. a user who already has a port gets it back with no mutation, no save and
   no probe;
2. otherwise, if the released pool is non-empty, its last element is popped
   and allocated (no OS probe, no range check on this path), then saved;
3. otherwise the range is scanned for the lowest free port, which is
   allocated and saved.
Error propagation (`?`) leaves already-applied mutations in place, exactly as
the Rust, which mutates the locked registry in steps. -/
def PortAllocator.allocate (rangeStart rangeEnd : Nat) (inUse : Nat → Bool)
    (reg : PortRegistry) (username : String) : AllocOut :=
  match reg.get_port username with
  | some port => ⟨Except.ok port, reg, [], []⟩
  | none =>
    match reg.pop_released with
    | (some port, rest) =>
        let reg1 : PortRegistry := { reg with released := rest }
        match reg1.allocate username port with
        | Except.ok reg2 => ⟨Except.ok port, reg2, [reg2], []⟩
        | Except.error e => ⟨Except.error e, reg1, [], []⟩
    | (none, _) =>
        let scan := find_available_port rangeStart rangeEnd inUse reg
        match scan.1 with
        | Except.ok port =>
            match reg.allocate username port with
            | Except.ok reg2 => ⟨Except.ok port, reg2, [reg2], scan.2⟩
            | Except.error e => ⟨Except.error e, reg, [], scan.2⟩
        | Except.error e => ⟨Except.error e, reg, [], scan.2⟩

/-- Result of `PortAllocator::release`. -/
structure ReleaseOut where
  res : Except String Unit
  reg : PortRegistry
  saves : List PortRegistry
  deriving Repr

/-- `PortAllocator::release`: delegate to the registry, then save; a registry
error is propagated before any mutation or save. -/
def PortAllocator.release (reg : PortRegistry) (username : String) : ReleaseOut :=
  match reg.release username with
  | Except.ok reg1 => ⟨Except.ok (), reg1, [reg1]⟩
  | Except.error e => ⟨Except.error e, reg, []⟩

/-! ## Filesystem effect of `PortRegistry::save` (`port/registry.rs:64-79`)

Paths are lists of components; the serialized content is abstracted as the
string argument (the claims about `save` concern which files are touched and
how, not the JSON text). -/

/-- One filesystem operation performed by the manager. -/
inductive FsOp where
  | createDirAll (dir : List String)
  | writeFile (path : List String) (content : String)
  | rename (src dst : List String)
  deriving Repr, DecidableEq

/-- The ordered filesystem operations performed by `PortRegistry::save`:
`fs::create_dir_all` on the parent directory (when the path has one), then a
single direct `fs::write` to the target path itself. -/
def savePlan (path : List String) (content : String) : List FsOp :=
  match path.dropLast with
  | [] => [FsOp.writeFile path content]
  | parent => [FsOp.createDirAll parent, FsOp.writeFile path content]

/-- Modelled from the spec: the atomic-replace save the specification
describes ("write to a sibling temp file, then rename", creating parent
directories if needed). This procedure appears nowhere in `src/`; it is the
spec's claim, stated as a plan to compare with `savePlan`. -/
def atomicSavePlanSpec (path tmp : List String) (content : String) : List FsOp :=
  match path.dropLast with
  | [] => [FsOp.writeFile tmp content, FsOp.rename tmp path]
  | parent =>
      [FsOp.createDirAll parent, FsOp.writeFile tmp content,
       FsOp.rename tmp path]

/-! ## Configuration validation (`config/mod.rs:170-186`)

Only the fields read by `Config::validate` are embedded; `u16`/`u8` values
become `Nat` (the checks involve no wrapping arithmetic). `ConfigParser::parse`
(`config/parser.rs:23-44`) builds the `Config` and ends with `config.validate()?`,
so load rejects exactly what `validate` rejects. -/

/-- The configuration fields inspected by `Config::validate`:
`service.port_range_start`, `service.port_range_end`, `service.manager_port`
and `defaults.cpu_limit`. -/
structure Config where
  port_range_start : Nat
  port_range_end : Nat
  manager_port : Nat
  cpu_limit : Nat
  deriving Repr, DecidableEq

/-- `Config::validate`: reject `port_range_start >= port_range_end`, a
`manager_port` inside the inclusive user range, and `cpu_limit > 100`. -/
def Config.validate (c : Config) : Except String Unit :=
  if c.port_range_start ≥ c.port_range_end then
    Except.error "port_range_start must be less than port_range_end"
  else if c.manager_port ≥ c.port_range_start ∧ c.manager_port ≤ c.port_range_end then
    Except.error "manager_port must be outside the user port range"
  else if c.cpu_limit > 100 then
    Except.error "cpu_limit must be between 0 and 100"
  else
    Except.ok ()

/-! ## Instance lifecycle (`instance/mod.rs`)

The instance table `HashMap<String, Instance>` is an association list with
unique keys. Timestamps are abstract `Nat` values (`Utc::now()` is a `now`
parameter); the monitoring fields `memory_usage`, `cpu_usage`, `app_count`,
`limits` and `last_health_check` are not touched by any operation a claim is
about and are omitted from the record. Spawning is an oracle
`spawn : String → Nat → Except String Nat` returning the new pid, standing
for `ProcessManager::spawn` (which fails when the OS spawn call errors or the
process exits within the ≈100 ms settling window, `instance/process.rs:57-72`). -/

/-- `InstanceStatus` (`instance/mod.rs:62-69`). -/
inductive InstanceStatus where
  | Running
  | Stopped
  | Starting
  | Stopping
  | Failed
  | Unknown
  deriving Repr, DecidableEq

/-- The fields of `Instance` that the lifecycle operations read or write. -/
structure Instance where
  username : String
  port : Nat
  status : InstanceStatus
  pid : Option Nat
  started_at : Option Nat
  deriving Repr, DecidableEq

/-- Result of `InstanceManager::start`: the returned value, the table
afterwards, and the list of spawn invocations `(username, port)` made. -/
structure StartOut where
  res : Except String Unit
  table : List (String × Instance)
  spawns : List (String × Nat)
  deriving Repr

/-- `InstanceManager::start` (`instance/mod.rs:191-224`):
* unknown user → error, no mutation;
* status already `Running` → `Ok(())` before any mutation or spawn;
* otherwise set status `Starting` and the port, spawn; on spawn failure the
  error propagates via `?` with the record left as mutated so far (status
  `Starting`, pid and `started_at` untouched); on success set pid, status
  `Running` and `started_at`. -/
def InstanceManager.start (spawn : String → Nat → Except String Nat) (now : Nat)
    (table : List (String × Instance)) (username : String) (port : Nat) :
    StartOut :=
  match lookupA table username with
  | none => ⟨Except.error ("Instance not found for user: " ++ username), table, []⟩
  | some inst =>
    if inst.status = InstanceStatus.Running then
      ⟨Except.ok (), table, []⟩
    else
      let inst1 : Instance := { inst with status := InstanceStatus.Starting, port := port }
      match spawn username port with
      | Except.error e =>
          ⟨Except.error e, mapInsert username inst1 table, [(username, port)]⟩
      | Except.ok pid =>
          let inst2 : Instance :=
            { inst1 with
                pid := some pid
                status := InstanceStatus.Running
                started_at := some now }
          ⟨Except.ok (), mapInsert username inst2 table, [(username, port)]⟩

/-! ## Orchestration (`manager.rs`) -/

/-- Result of `FrameManager::start_instance`: value, registry and table
afterwards. -/
structure StartInstanceOut where
  res : Except String Unit
  reg : PortRegistry
  table : List (String × Instance)
  deriving Repr

/-- `FrameManager::start_instance` (`manager.rs:239-260`): allocate a port for
the user, then delegate to `InstanceManager::start` with it; either error
propagates via `?` (the port allocation performed by the first step is never
rolled back). The event emission and metrics refresh that follow on success
touch neither the registry nor the table. -/
def FrameManager.start_instance (rangeStart rangeEnd : Nat) (inUse : Nat → Bool)
    (spawn : String → Nat → Except String Nat) (now : Nat)
    (reg : PortRegistry) (table : List (String × Instance)) (username : String) :
    StartInstanceOut :=
  let a := PortAllocator.allocate rangeStart rangeEnd inUse reg username
  match a.res with
  | Except.error e => ⟨Except.error e, a.reg, table⟩
  | Except.ok port =>
      let s := InstanceManager.start spawn now table username port
      ⟨s.res, a.reg, s.table⟩

/-- `FrameManager::auto_start_instances` (`manager.rs:184-210`): for each
discovered instance, read `<instances>/<username>/config.json`; only when the
file EXISTS is its `auto_start` field consulted (`unwrap_or(true)` when the
key is absent or not a boolean), and `start_instance` invoked on true. A
directory with no `config.json` is skipped by the `if config_path.exists()`
guard. The per-user config oracle returns `none` when the file is absent, and
`some v` when present, where `v : Option Bool` is
`config.get("auto_start").and_then(as_bool)`. Start failures are logged and
do not remove the username from the invocation list. Returns the usernames
for which `start_instance` is invoked, in order. -/
def FrameManager.auto_start_instances (cfg : String → Option (Option Bool)) :
    List Instance → List String
  | [] => []
  | i :: rest =>
      (match cfg i.username with
       | some v => if v.getD true then [i.username] else []
       | none => []) ++ FrameManager.auto_start_instances cfg rest

/-! ## Health-monitor tick (`health/mod.rs:80-141`)

The three probes are I/O (signal-zero, TCP connect, HTTP round-trip); one
tick's outcomes are an oracle per username. The restart outcome
(`instance_manager.restart`) is likewise an oracle; the tick only logs its
error. The health status cache is reduced to its `consecutive_failures`
field, an association list `String → Nat` (the `healthy`, `checks` and
`last_check` fields are overwritten every tick and feed no decision). -/

/-- One tick's probe outcomes for one username: the process, port and HTTP
checks. -/
structure ProbeOutcome where
  processOk : Bool
  portOk : Bool
  httpOk : Bool
  deriving Repr, DecidableEq

/-- `all_passed` for one instance: the process check is executed (and its
result folded in) only when `pid` is present; the port and HTTP checks always
run. -/
def allPassed (probe : String → ProbeOutcome) (i : Instance) : Bool :=
  (match i.pid with
   | some _ => (probe i.username).processOk
   | none => true)
  && (probe i.username).portOk && (probe i.username).httpOk

/-- Processing of one instance inside the tick loop: records not in state
`Running` are skipped; otherwise the cache entry (created at 0 via
`or_insert` if missing) is reset to 0 on a pass, incremented on a failure,
and when the incremented count reaches 3 a restart `(username, instance.port)`
is recorded and the count reset to 0 whatever `restartOk` says. Returns the
cache afterwards and the restart invocations. -/
def tickStep (probe : String → ProbeOutcome) (restartOk : String → Bool)
    (cache : List (String × Nat)) (i : Instance) :
    List (String × Nat) × List (String × Nat) :=
  if i.status ≠ InstanceStatus.Running then (cache, [])
  else
    let prev := (lookupA cache i.username).getD 0
    if allPassed probe i then
      (mapInsert i.username 0 cache, [])
    else
      if prev + 1 ≥ 3 then
        (mapInsert i.username 0 cache, [(i.username, i.port)])
      else
        (mapInsert i.username (prev + 1) cache, [])

/-- One full tick of `HealthMonitor::start`'s loop over the instance-table
snapshot: fold `tickStep` over the instances, accumulating restarts. -/
def runTick (probe : String → ProbeOutcome) (restartOk : String → Bool)
    (cache : List (String × Nat)) :
    List Instance → List (String × Nat) × List (String × Nat)
  | [] => (cache, [])
  | i :: rest =>
      let s := tickStep probe restartOk cache i
      let t := runTick probe restartOk s.1 rest
      (t.1, s.2 ++ t.2)

/-! ## Allocator operation sequences and the registry invariant -/

/-- One allocator-level operation: `PortAllocator::allocate(u)` (its OS-probe
oracle may differ from call to call, since the loopback bind state changes
over time) or `PortAllocator::release(u)`. -/
inductive AllocatorOp where
  | alloc (username : String) (inUse : Nat → Bool)
  | rel (username : String)

/-- Apply one operation to the registry, keeping the post-state whether the
operation succeeded or failed (an error leaves exactly the mutations the Rust
performed before bailing). -/
def applyOp (rangeStart rangeEnd : Nat) (reg : PortRegistry) :
    AllocatorOp → PortRegistry
  | AllocatorOp.alloc u inUse =>
      (PortAllocator.allocate rangeStart rangeEnd inUse reg u).reg
  | AllocatorOp.rel u => (PortAllocator.release reg u).reg

/-- Run a sequence of allocator operations from a given registry state. -/
def runOps (rangeStart rangeEnd : Nat) (reg : PortRegistry) :
    List AllocatorOp → PortRegistry
  | [] => reg
  | op :: rest => runOps rangeStart rangeEnd (applyOp rangeStart rangeEnd reg op) rest

/-- The registry invariant the specification claims (§3 invariant 4, §8):
values of `allocated` pairwise distinct, every value inside the inclusive
range, and `released` disjoint from the values. -/
def ClaimInv (rangeStart rangeEnd : Nat) (reg : PortRegistry) : Prop :=
  (valuesA reg.allocated).Nodup ∧
  (∀ p ∈ valuesA reg.allocated, rangeStart ≤ p ∧ p ≤ rangeEnd) ∧
  (∀ p ∈ reg.released, p ∉ valuesA reg.allocated)

/-- Strengthened inductive invariant: additionally the keys of `allocated`
are pairwise distinct (it embeds a `HashMap`) and the released pool stays
inside the range (a popped port is re-issued without a range check, so this
is what keeps re-issued ports in range). -/
def RegInv (rangeStart rangeEnd : Nat) (reg : PortRegistry) : Prop :=
  (keysA reg.allocated).Nodup ∧
  (valuesA reg.allocated).Nodup ∧
  (∀ p ∈ valuesA reg.allocated, rangeStart ≤ p ∧ p ≤ rangeEnd) ∧
  (∀ p ∈ reg.released, rangeStart ≤ p ∧ p ≤ rangeEnd) ∧
  (∀ p ∈ reg.released, p ∉ valuesA reg.allocated)

instance : DecidablePred (ClaimInv s e) := fun reg => by
  unfold ClaimInv; infer_instance

instance : DecidablePred (RegInv s e) := fun reg => by
  unfold RegInv; infer_instance

/-- Does a filesystem operation rename anything? -/
def FsOp.isRename : FsOp → Bool
  | FsOp.rename _ _ => true
  | _ => false

/-! ## Helper lemmas about the association-list primitives -/

@[simp]
theorem keysA_nil {α : Type} : keysA ([] : List (String × α)) = [] := rfl

@[simp]
theorem keysA_cons {α : Type} (k : String) (v : α) (l : List (String × α)) :
    keysA ((k, v) :: l) = k :: keysA l := rfl

@[simp]
theorem valuesA_nil {α : Type} : valuesA ([] : List (String × α)) = [] := rfl

@[simp]
theorem valuesA_cons {α : Type} (k : String) (v : α) (l : List (String × α)) :
    valuesA ((k, v) :: l) = v :: valuesA l := rfl

@[simp]
theorem lookupA_nil {α : Type} (u : String) : lookupA ([] : List (String × α)) u = none := rfl

theorem lookupA_cons {α : Type} (k : String) (v : α) (l : List (String × α))
    (u : String) :
    lookupA ((k, v) :: l) u = if k = u then some v else lookupA l u := rfl

@[simp]
theorem mapErase_nil {α : Type} (u : String) :
    mapErase u ([] : List (String × α)) = [] := rfl

theorem mapErase_cons {α : Type} (u k : String) (v : α) (l : List (String × α)) :
    mapErase u ((k, v) :: l) =
      if k = u then mapErase u l else (k, v) :: mapErase u l := by
  by_cases h : k = u <;> simp [mapErase, List.filter_cons, h]

theorem lookupA_eq_none {α : Type} {l : List (String × α)} {u : String} :
    lookupA l u = none ↔ u ∉ keysA l := by
  induction l with
  | nil => simp
  | cons kv rest ih =>
    obtain ⟨k, v⟩ := kv
    by_cases h : k = u
    · subst h
      simp [lookupA_cons]
    · simp only [lookupA_cons, if_neg h, keysA_cons, List.mem_cons, ih]
      constructor
      · rintro hn (hk | hk)
        · exact h hk.symm
        · exact hn hk
      · intro hn hk
        exact hn (Or.inr hk)

theorem lookupA_mem_values {α : Type} {l : List (String × α)} {u : String}
    {p : α} (h : lookupA l u = some p) : p ∈ valuesA l := by
  induction l with
  | nil => simp at h
  | cons kv rest ih =>
    obtain ⟨k, v⟩ := kv
    by_cases hk : k = u
    · rw [lookupA_cons, if_pos hk] at h
      cases h
      simp
    · rw [lookupA_cons, if_neg hk] at h
      simp [ih h]

theorem mapInsert_of_not_mem_keys {α : Type} {l : List (String × α)}
    {u : String} (p : α) (h : u ∉ keysA l) : mapInsert u p l = l ++ [(u, p)] := by
  induction l with
  | nil => simp [mapInsert]
  | cons kv rest ih =>
    obtain ⟨k, v⟩ := kv
    simp only [keysA_cons, List.mem_cons] at h
    push_neg at h
    have hk : ¬ k = u := fun hc => h.1 hc.symm
    simp [mapInsert, hk, ih h.2]

theorem lookupA_mapInsert_self {α : Type} (l : List (String × α)) (u : String)
    (p : α) : lookupA (mapInsert u p l) u = some p := by
  induction l with
  | nil => simp [mapInsert, lookupA_cons]
  | cons kv rest ih =>
    obtain ⟨k, v⟩ := kv
    by_cases h : k = u <;> simp [mapInsert, lookupA_cons, h, ih]

theorem lookupA_mapInsert_ne {α : Type} (l : List (String × α)) {u w : String}
    (p : α) (h : w ≠ u) : lookupA (mapInsert u p l) w = lookupA l w := by
  have hne : ¬ u = w := fun hc => h hc.symm
  induction l with
  | nil => simp [mapInsert, lookupA_cons, hne]
  | cons kv rest ih =>
    obtain ⟨k, v⟩ := kv
    by_cases hk : k = u
    · subst hk
      simp [mapInsert, lookupA_cons, hne]
    · simp [mapInsert, hk, lookupA_cons, ih]

theorem valuesA_mapErase_sublist {α : Type} (l : List (String × α))
    (u : String) : (valuesA (mapErase u l)).Sublist (valuesA l) :=
  List.Sublist.map _ (List.filter_sublist l)

theorem not_mem_values_mapErase {α : Type} {l : List (String × α)}
    {u : String} {p : α} (hnd : (valuesA l).Nodup)
    (h : lookupA l u = some p) : p ∉ valuesA (mapErase u l) := by
  induction l with
  | nil => simp at h
  | cons kv rest ih =>
    obtain ⟨k, v⟩ := kv
    rw [valuesA_cons, List.nodup_cons] at hnd
    by_cases hk : k = u
    · rw [lookupA_cons, if_pos hk] at h
      cases h
      rw [mapErase_cons, if_pos hk]
      intro hmem
      exact hnd.1 ((valuesA_mapErase_sublist rest u).subset hmem)
    · rw [lookupA_cons, if_neg hk] at h
      have hv : p ∈ valuesA rest := lookupA_mem_values h
      rw [mapErase_cons, if_neg hk, valuesA_cons]
      intro hmem
      rcases List.mem_cons.mp hmem with hmem | hmem
      · exact hnd.1 (hmem ▸ hv)
      · exact ih hnd.2 h hmem

/-! ## Claim theorems -/

/-- C7: for every username that already has a port in the allocated map,
`PortAllocator::allocate` returns that same port and leaves the registry
completely unchanged: no mutation of `allocated` or `released`, no persisted
snapshot, and no OS-level probe. -/
theorem allocate_existing_user_is_readonly (rangeStart rangeEnd : Nat)
    (inUse : Nat → Bool) (reg : PortRegistry) (username : String) (p : Nat)
    (h : lookupA reg.allocated username = some p) :
    (PortAllocator.allocate rangeStart rangeEnd inUse reg username).res =
        Except.ok p ∧
    (PortAllocator.allocate rangeStart rangeEnd inUse reg username).reg = reg ∧
    (PortAllocator.allocate rangeStart rangeEnd inUse reg username).saves = [] ∧
    (PortAllocator.allocate rangeStart rangeEnd inUse reg username).probes = [] := by
  simp [PortAllocator.allocate, PortRegistry.get_port, h]

/-- Witness for C7 at the concrete registry `{alice ↦ 30001}`. -/
theorem allocate_existing_user_is_readonly_witness :
    (PortAllocator.allocate 30001 32000 (fun _ => false)
        ⟨[("alice", 30001)], [30002]⟩ "alice").res = Except.ok 30001 ∧
    (PortAllocator.allocate 30001 32000 (fun _ => false)
        ⟨[("alice", 30001)], [30002]⟩ "alice").reg = ⟨[("alice", 30001)], [30002]⟩ ∧
    (PortAllocator.allocate 30001 32000 (fun _ => false)
        ⟨[("alice", 30001)], [30002]⟩ "alice").saves = [] ∧
    (PortAllocator.allocate 30001 32000 (fun _ => false)
        ⟨[("alice", 30001)], [30002]⟩ "alice").probes = [] :=
  allocate_existing_user_is_readonly 30001 32000 (fun _ => false)
    ⟨[("alice", 30001)], [30002]⟩ "alice" 30001 (by decide)

/-- C8: `Config::validate` (and hence `ConfigParser::parse`, which ends with
`config.validate()?`) accepts a configuration exactly when
`port_range_start < port_range_end`, the manager port lies outside the
inclusive user range, and `cpu_limit ≤ 100`; in particular `cpu_limit = 100`
passes the cpu check and `101` fails it. -/
theorem config_validate_ok_iff (c : Config) :
    c.validate = Except.ok () ↔
      (c.port_range_start < c.port_range_end ∧
       ¬ (c.port_range_start ≤ c.manager_port ∧
          c.manager_port ≤ c.port_range_end) ∧
       c.cpu_limit ≤ 100) := by
  unfold Config.validate
  split_ifs with h1 h2 h3 <;>
    simp <;> omega

/-- C4 counterexample: the auto-start sweep invokes `start` for NO user whose
directory lacks `config.json` (the `if config_path.exists()` guard has no
else branch, `manager.rs:193-206`). The claim says a user directory with no
`config.json` is started; here `alice` has no `config.json` (the config
oracle returns `none`) and the sweep starts nobody. -/
theorem auto_start_skips_missing_config_counterexample :
    FrameManager.auto_start_instances (fun _ => none)
      [⟨"alice", 0, InstanceStatus.Stopped, none, none⟩] = [] := rfl

/-- C4 amended: during the auto-start sweep, `start(username)` is invoked
exactly when the user's `config.json` exists and its `auto_start` value is
`true` or absent (or not a boolean); a user directory with no `config.json`
is skipped. -/
theorem auto_start_invoked_iff (cfg : String → Option (Option Bool))
    (instances : List Instance) (u : String) :
    u ∈ FrameManager.auto_start_instances cfg instances ↔
      ∃ i ∈ instances, i.username = u ∧
        ∃ v, cfg u = some v ∧ v.getD true = true := by
  induction instances with
  | nil => simp [FrameManager.auto_start_instances]
  | cons i rest ih =>
    rw [FrameManager.auto_start_instances]
    rw [List.mem_append, ih]
    constructor
    · rintro (hhead | ⟨j, hj, hju, v, hv, hvt⟩)
      · rcases hcfg : cfg i.username with _ | v
        · rw [hcfg] at hhead
          simp at hhead
        · rw [hcfg] at hhead
          have hhead' : u ∈ (if v.getD true = true then [i.username] else []) :=
            hhead
          by_cases hvt : v.getD true = true
          · rw [if_pos hvt] at hhead'
            rcases List.mem_singleton.mp hhead' with rfl
            exact ⟨i, List.mem_cons_self i rest, rfl, v, hcfg, hvt⟩
          · rw [if_neg hvt] at hhead'
            simp at hhead'
      · exact ⟨j, List.mem_cons_of_mem i hj, hju, v, hv, hvt⟩
    · rintro ⟨j, hj, hju, v, hv, hvt⟩
      rcases List.mem_cons.mp hj with rfl | hj
      · left
        rw [hju, hv]
        show u ∈ (if v.getD true = true then [u] else [])
        rw [if_pos hvt]
        exact List.mem_singleton.mpr rfl
      · exact Or.inr ⟨j, hj, hju, v, hv, hvt⟩

/-- C3 counterexample: at the concrete path
`/var/frame/manager/ports.json`, `PortRegistry::save` creates the parent
directory and then writes the serialized document DIRECTLY to the target
path; its operation trace contains no write to a sibling temporary file and
no rename at all, so the claimed temp-file-then-rename sequence does not
happen. -/
theorem save_writes_directly_counterexample :
    savePlan ["var", "frame", "manager", "ports.json"] "serialized" =
      [FsOp.createDirAll ["var", "frame", "manager"],
       FsOp.writeFile ["var", "frame", "manager", "ports.json"] "serialized"] ∧
    (savePlan ["var", "frame", "manager", "ports.json"] "serialized").all
      (fun op => ! op.isRename) = true := by
  constructor
  · rfl
  · rfl

/-- C3 amended: for every path and serialized content, `save` creates the
parent directory if the path has one and then writes the content directly to
the target path; it performs no rename (and touches no temporary file), so
the replacement is not atomic. -/
theorem save_plan_characterization (path : List String) (content : String) :
    FsOp.writeFile path content ∈ savePlan path content ∧
    (savePlan path content).all (fun op => ! op.isRename) = true := by
  unfold savePlan
  rcases h : path.dropLast with _ | ⟨d, ds⟩ <;>
    simp [FsOp.isRename]

/-- C5: for every registry whose released pool is non-empty and every
username with no existing allocation, `allocate` returns the most recently
released port — the LAST element of `released` (`Vec::pop`) — not a port
found by scanning the range. The popped port must not collide with a current
allocation (`PortRegistry::allocate` rejects that); the registry invariant
proved for all reachable states guarantees this disjointness. -/
theorem allocate_reuses_last_released (rangeStart rangeEnd : Nat)
    (inUse : Nat → Bool) (reg : PortRegistry) (username : String) (p : Nat)
    (hlast : reg.released.getLast? = some p)
    (hu : lookupA reg.allocated username = none)
    (hp : p ∉ valuesA reg.allocated) :
    (PortAllocator.allocate rangeStart rangeEnd inUse reg username).res =
      Except.ok p := by
  simp [PortAllocator.allocate, PortRegistry.get_port, hu,
    PortRegistry.pop_released, hlast, PortRegistry.allocate, hp]

/-- Witness for C5 at the spec's literal scenario: registry
`{allocated: {alice: 30001}, released: [30002]}`; `allocate(bob)` returns
`30002`. -/
theorem allocate_reuses_last_released_witness :
    (PortAllocator.allocate 30001 30003 (fun _ => false)
        ⟨[("alice", 30001)], [30002]⟩ "bob").res = Except.ok 30002 :=
  allocate_reuses_last_released 30001 30003 (fun _ => false)
    ⟨[("alice", 30001)], [30002]⟩ "bob" 30002 (by decide) (by decide) (by decide)

/-- C10: on the released-pool reuse path (pool non-empty, user not yet
allocated, popped port not colliding with an allocation) `allocate` returns
the popped port having performed NO OS-level bind probe — for any probe
oracle whatsoever — and without checking the port against the configured
range (no range hypothesis appears here, and the witness re-issues a port
outside the range). The probe happens only on the range-scan path. -/
theorem allocate_reuse_path_never_probes (rangeStart rangeEnd : Nat)
    (inUse : Nat → Bool) (reg : PortRegistry) (username : String) (p : Nat)
    (hlast : reg.released.getLast? = some p)
    (hu : lookupA reg.allocated username = none)
    (hp : p ∉ valuesA reg.allocated) :
    (PortAllocator.allocate rangeStart rangeEnd inUse reg username).res =
        Except.ok p ∧
    (PortAllocator.allocate rangeStart rangeEnd inUse reg username).probes = [] := by
  refine ⟨?_, ?_⟩ <;>
    simp [PortAllocator.allocate, PortRegistry.get_port, hu,
      PortRegistry.pop_released, hlast, PortRegistry.allocate, hp]

/-- Witness for C10: range `30001..=30003`, released pool `[99]` (outside the
range), every port reported as OS-bound by the oracle — `allocate(bob)` still
returns `99` and probes nothing. -/
theorem allocate_reuse_path_never_probes_witness :
    (PortAllocator.allocate 30001 30003 (fun _ => true)
        ⟨[("alice", 30001)], [99]⟩ "bob").res = Except.ok 99 ∧
    (PortAllocator.allocate 30001 30003 (fun _ => true)
        ⟨[("alice", 30001)], [99]⟩ "bob").probes = [] :=
  allocate_reuse_path_never_probes 30001 30003 (fun _ => true)
    ⟨[("alice", 30001)], [99]⟩ "bob" 99 (by decide) (by decide) (by decide)

/-- C9: `InstanceManager::start` on a record whose status is already
`Running` returns success before any mutation or spawn: the table (and hence
the record's pid, port, `started_at` and state) is unchanged and no spawn is
invoked. -/
theorem start_idempotent_when_running (spawn : String → Nat → Except String Nat)
    (now : Nat) (table : List (String × Instance)) (username : String)
    (port : Nat) (inst : Instance)
    (h : lookupA table username = some inst)
    (hr : inst.status = InstanceStatus.Running) :
    (InstanceManager.start spawn now table username port).res = Except.ok () ∧
    (InstanceManager.start spawn now table username port).table = table ∧
    (InstanceManager.start spawn now table username port).spawns = [] := by
  refine ⟨?_, ?_, ?_⟩ <;> simp [InstanceManager.start, h, hr]

/-- Witness for C9: a running `alice` record; `start` with a spawn oracle
that would fail shows no spawn can even be attempted. -/
theorem start_idempotent_when_running_witness :
    (InstanceManager.start (fun _ _ => Except.error "spawn refused") 7
        [("alice", ⟨"alice", 30001, InstanceStatus.Running, some 42, some 5⟩)]
        "alice" 30001).res = Except.ok () ∧
    (InstanceManager.start (fun _ _ => Except.error "spawn refused") 7
        [("alice", ⟨"alice", 30001, InstanceStatus.Running, some 42, some 5⟩)]
        "alice" 30001).table =
      [("alice", ⟨"alice", 30001, InstanceStatus.Running, some 42, some 5⟩)] ∧
    (InstanceManager.start (fun _ _ => Except.error "spawn refused") 7
        [("alice", ⟨"alice", 30001, InstanceStatus.Running, some 42, some 5⟩)]
        "alice" 30001).spawns = [] :=
  start_idempotent_when_running (fun _ _ => Except.error "spawn refused") 7
    [("alice", ⟨"alice", 30001, InstanceStatus.Running, some 42, some 5⟩)]
    "alice" 30001 ⟨"alice", 30001, InstanceStatus.Running, some 42, some 5⟩
    (by decide) rfl

/-- C1, evaluated at the failing input: `alice` is known and `Stopped`, her
port `30001` is already allocated, and the spawn fails (the process exits
within the settling window). `FrameManager::start_instance` surfaces the
spawn error to the caller and leaves the port allocation intact — both as the
claim says — but the record's state afterwards is `Starting`, NOT `Failed`:
no code path in the repository ever assigns `InstanceStatus::Failed`
(`instance/mod.rs:202` sets `Starting`, then the `?` on the failed spawn at
`instance/mod.rs:206-215` returns before any further state change). -/
theorem start_instance_spawn_failure_leaves_starting :
    (FrameManager.start_instance 30001 30003 (fun _ => false)
        (fun _ _ => Except.error "Frame server process exited immediately for user alice")
        0 ⟨[("alice", 30001)], []⟩
        [("alice", ⟨"alice", 0, InstanceStatus.Stopped, none, none⟩)]
        "alice").res =
      Except.error "Frame server process exited immediately for user alice" ∧
    lookupA (FrameManager.start_instance 30001 30003 (fun _ => false)
        (fun _ _ => Except.error "Frame server process exited immediately for user alice")
        0 ⟨[("alice", 30001)], []⟩
        [("alice", ⟨"alice", 0, InstanceStatus.Stopped, none, none⟩)]
        "alice").reg.allocated "alice" = some 30001 ∧
    (lookupA (FrameManager.start_instance 30001 30003 (fun _ => false)
        (fun _ _ => Except.error "Frame server process exited immediately for user alice")
        0 ⟨[("alice", 30001)], []⟩
        [("alice", ⟨"alice", 0, InstanceStatus.Stopped, none, none⟩)]
        "alice").table "alice").map Instance.status =
      some InstanceStatus.Starting ∧
    (lookupA (FrameManager.start_instance 30001 30003 (fun _ => false)
        (fun _ _ => Except.error "Frame server process exited immediately for user alice")
        0 ⟨[("alice", 30001)], []⟩
        [("alice", ⟨"alice", 0, InstanceStatus.Stopped, none, none⟩)]
        "alice").table "alice").map Instance.status ≠
      some InstanceStatus.Failed := by
  refine ⟨rfl, by decide, by decide, by decide⟩

/-! ## Lemmas towards the registry invariant (C2) -/

theorem scanPorts_ok {vals : List Nat} {inUse : Nat → Bool}
    {ports : List Nat} {p : Nat}
    (h : (scanPorts vals inUse ports).1 = Except.ok p) :
    p ∈ ports ∧ p ∉ vals := by
  induction ports with
  | nil => simp [scanPorts] at h
  | cons q rest ih =>
    by_cases hq : q ∈ vals
    · rw [scanPorts, if_pos hq] at h
      exact ⟨List.mem_cons_of_mem q (ih h).1, (ih h).2⟩
    · by_cases hb : inUse q
      · rw [scanPorts, if_neg hq, if_pos hb] at h
        exact ⟨List.mem_cons_of_mem q (ih h).1, (ih h).2⟩
      · rw [scanPorts, if_neg hq, if_neg hb] at h
        simp only [Except.ok.injEq] at h
        subst h
        exact ⟨List.mem_cons_self q rest, hq⟩

theorem find_available_port_ok {rangeStart rangeEnd : Nat} {inUse : Nat → Bool}
    {reg : PortRegistry} {p : Nat}
    (h : (find_available_port rangeStart rangeEnd inUse reg).1 = Except.ok p) :
    (rangeStart ≤ p ∧ p ≤ rangeEnd) ∧ p ∉ valuesA reg.allocated := by
  obtain ⟨hmem, hnv⟩ := scanPorts_ok h
  rw [List.mem_range'_1] at hmem
  exact ⟨⟨hmem.1, by omega⟩, hnv⟩

theorem regInv_registry_allocate {rangeStart rangeEnd : Nat}
    {reg reg' : PortRegistry} {u : String} {p : Nat}
    (hinv : RegInv rangeStart rangeEnd reg)
    (hu : lookupA reg.allocated u = none)
    (hlo : rangeStart ≤ p) (hhi : p ≤ rangeEnd)
    (hok : reg.allocate u p = Except.ok reg') :
    RegInv rangeStart rangeEnd reg' := by
  obtain ⟨hkeys, hvals, hvrange, hrrange, hdisj⟩ := hinv
  unfold PortRegistry.allocate at hok
  by_cases hp : p ∈ valuesA reg.allocated
  · rw [if_pos hp] at hok
    cases hok
  · rw [if_neg hp] at hok
    cases hok
    have hins := mapInsert_of_not_mem_keys (l := reg.allocated) p
      (lookupA_eq_none.mp hu)
    refine ⟨?_, ?_, ?_, ?_, ?_⟩
    · rw [hins]
      unfold keysA at hkeys ⊢
      rw [List.map_append]
      simp only [List.map_cons, List.map_nil]
      rw [List.nodup_append]
      refine ⟨hkeys, List.nodup_singleton u, ?_⟩
      intro k hk hk'
      rcases List.mem_singleton.mp hk' with rfl
      exact (lookupA_eq_none.mp hu) hk
    · rw [hins]
      unfold valuesA at hvals hp ⊢
      rw [List.map_append]
      simp only [List.map_cons, List.map_nil]
      rw [List.nodup_append]
      refine ⟨hvals, List.nodup_singleton p, ?_⟩
      intro q hq hq'
      rcases List.mem_singleton.mp hq' with rfl
      exact hp hq
    · rw [hins]
      unfold valuesA at hvrange ⊢
      rw [List.map_append]
      intro q hq
      rcases List.mem_append.mp hq with hq | hq
      · exact hvrange q hq
      · simp only [List.map_cons, List.map_nil, List.mem_singleton] at hq
        subst hq
        exact ⟨hlo, hhi⟩
    · intro q hq
      exact hrrange q ((List.filter_sublist reg.released).subset hq)
    · intro q hq
      rw [List.mem_filter] at hq
      have hqp : q ≠ p := by simpa using hq.2
      have hqv : q ∉ valuesA reg.allocated := hdisj q hq.1
      rw [hins]
      unfold valuesA at hqv ⊢
      rw [List.map_append]
      intro hmem
      rcases List.mem_append.mp hmem with hmem | hmem
      · exact hqv hmem
      · simp only [List.map_cons, List.map_nil, List.mem_singleton] at hmem
        exact hqp hmem

theorem regInv_dropLast_released {rangeStart rangeEnd : Nat}
    {reg : PortRegistry} (hinv : RegInv rangeStart rangeEnd reg) :
    RegInv rangeStart rangeEnd { reg with released := reg.released.dropLast } := by
  obtain ⟨hkeys, hvals, hvrange, hrrange, hdisj⟩ := hinv
  refine ⟨hkeys, hvals, hvrange, ?_, ?_⟩
  · intro q hq
    exact hrrange q ((List.dropLast_sublist reg.released).subset hq)
  · intro q hq
    exact hdisj q ((List.dropLast_sublist reg.released).subset hq)

theorem regInv_allocate (rangeStart rangeEnd : Nat) (inUse : Nat → Bool)
    {reg : PortRegistry} (u : String)
    (hinv : RegInv rangeStart rangeEnd reg) :
    RegInv rangeStart rangeEnd
      (PortAllocator.allocate rangeStart rangeEnd inUse reg u).reg := by
  unfold PortAllocator.allocate
  rcases hg : reg.get_port u with _ | p
  · rcases hlast : reg.released.getLast? with _ | p
    · have hrel : reg.released = [] := List.getLast?_eq_none_iff.mp hlast
      simp only [PortRegistry.pop_released, hlast]
      rcases hscan : (find_available_port rangeStart rangeEnd inUse reg).1
        with e | q
      · simpa [hscan] using hinv
      · obtain ⟨⟨hlo, hhi⟩, _⟩ := find_available_port_ok hscan
        rcases halloc : reg.allocate u q with e | reg2
        · simpa [hscan, halloc] using hinv
        · have := regInv_registry_allocate hinv hg hlo hhi halloc
          simpa [hscan, halloc] using this
    · simp only [PortRegistry.pop_released, hlast]
      have hmem : p ∈ reg.released := List.mem_of_mem_getLast? hlast
      have hinv1 := regInv_dropLast_released hinv
      have hlo := (hinv.2.2.2.1 p hmem).1
      have hhi := (hinv.2.2.2.1 p hmem).2
      rcases halloc : PortRegistry.allocate
          { reg with released := reg.released.dropLast } u p with e | reg2
      · simpa [halloc] using hinv1
      · have := regInv_registry_allocate hinv1 hg hlo hhi halloc
        simpa [halloc] using this
  · simpa [PortRegistry.get_port, hg] using hinv

theorem release_reg_of_lookup_some {reg : PortRegistry} {u : String} {p : Nat}
    (hg : lookupA reg.allocated u = some p) :
    (PortAllocator.release reg u).reg =
      { allocated := mapErase u reg.allocated
        released :=
          if p ∈ reg.released then reg.released else reg.released ++ [p] } := by
  simp [PortAllocator.release, PortRegistry.release, hg]

theorem regInv_release (rangeStart rangeEnd : Nat) {reg : PortRegistry}
    (u : String) (hinv : RegInv rangeStart rangeEnd reg) :
    RegInv rangeStart rangeEnd (PortAllocator.release reg u).reg := by
  rcases hg : lookupA reg.allocated u with _ | p
  · simpa [PortAllocator.release, PortRegistry.release, hg] using hinv
  · rw [release_reg_of_lookup_some hg]
    obtain ⟨hkeys, hvals, hvrange, hrrange, hdisj⟩ := hinv
    have hsub := valuesA_mapErase_sublist reg.allocated u
    have hksub : (keysA (mapErase u reg.allocated)).Sublist (keysA reg.allocated) :=
      List.Sublist.map _ (List.filter_sublist reg.allocated)
    have hpv : p ∈ valuesA reg.allocated := lookupA_mem_values hg
    have hpn : p ∉ valuesA (mapErase u reg.allocated) :=
      not_mem_values_mapErase hvals hg
    refine ⟨hksub.nodup hkeys, hsub.nodup hvals, ?_, ?_, ?_⟩
    · intro q hq
      exact hvrange q (hsub.subset hq)
    · intro q hq
      by_cases hmem : p ∈ reg.released
      · rw [if_pos hmem] at hq
        exact hrrange q hq
      · rw [if_neg hmem] at hq
        rcases List.mem_append.mp hq with hq | hq
        · exact hrrange q hq
        · rcases List.mem_singleton.mp hq with rfl
          exact hvrange q hpv
    · intro q hq
      by_cases hmem : p ∈ reg.released
      · rw [if_pos hmem] at hq
        intro hc
        exact hdisj q hq (hsub.subset hc)
      · rw [if_neg hmem] at hq
        rcases List.mem_append.mp hq with hq | hq
        · intro hc
          exact hdisj q hq (hsub.subset hc)
        · rcases List.mem_singleton.mp hq with rfl
          exact hpn

theorem regInv_applyOp (rangeStart rangeEnd : Nat) {reg : PortRegistry}
    (op : AllocatorOp) (hinv : RegInv rangeStart rangeEnd reg) :
    RegInv rangeStart rangeEnd (applyOp rangeStart rangeEnd reg op) := by
  cases op with
  | alloc u inUse => exact regInv_allocate rangeStart rangeEnd inUse u hinv
  | rel u => exact regInv_release rangeStart rangeEnd u hinv

theorem regInv_runOps (rangeStart rangeEnd : Nat) {reg : PortRegistry}
    (ops : List AllocatorOp) (hinv : RegInv rangeStart rangeEnd reg) :
    RegInv rangeStart rangeEnd (runOps rangeStart rangeEnd reg ops) := by
  induction ops generalizing reg with
  | nil => exact hinv
  | cons op rest ih =>
      exact ih (regInv_applyOp rangeStart rangeEnd op hinv)

theorem regInv_empty (rangeStart rangeEnd : Nat) :
    RegInv rangeStart rangeEnd PortRegistry.empty := by
  refine ⟨List.nodup_nil, List.nodup_nil, ?_, ?_, ?_⟩ <;>
    intro p hp <;> cases hp

/-- C2: for every finite sequence of `allocate`/`release` operations over any
usernames (each `allocate` with its own OS-probe oracle), starting from the
empty registry, the resulting registry has pairwise-distinct allocated
values, every allocated value inside the configured inclusive range, and a
released pool disjoint from the allocated values. -/
theorem registry_invariant_all_sequences (rangeStart rangeEnd : Nat)
    (ops : List AllocatorOp) :
    ClaimInv rangeStart rangeEnd
      (runOps rangeStart rangeEnd PortRegistry.empty ops) := by
  have h := regInv_runOps rangeStart rangeEnd ops
    (regInv_empty rangeStart rangeEnd)
  exact ⟨h.2.1, h.2.2.1, h.2.2.2.2⟩

/-! ## Lemmas towards the health-monitor tick (C6) -/

theorem tickStep_other (probe : String → ProbeOutcome) (restartOk : String → Bool)
    (cache : List (String × Nat)) (i : Instance) {u : String}
    (h : i.username ≠ u) :
    lookupA (tickStep probe restartOk cache i).1 u = lookupA cache u ∧
    ∀ p, (u, p) ∉ (tickStep probe restartOk cache i).2 := by
  unfold tickStep
  by_cases hs : i.status ≠ InstanceStatus.Running
  · rw [if_pos hs]
    exact ⟨rfl, fun p hp => (List.not_mem_nil (u, p)) hp⟩
  · rw [if_neg hs]
    have hne : u ≠ i.username := fun hc => h hc.symm
    by_cases hpass : allPassed probe i = true
    · rw [if_pos hpass]
      exact ⟨lookupA_mapInsert_ne cache 0 hne,
        fun p hp => (List.not_mem_nil (u, p)) hp⟩
    · rw [if_neg hpass]
      by_cases hth : (lookupA cache i.username).getD 0 + 1 ≥ 3
      · rw [if_pos hth]
        refine ⟨lookupA_mapInsert_ne cache 0 hne, fun p hp => ?_⟩
        rcases List.mem_singleton.mp hp with hp
        exact h (congrArg Prod.fst hp).symm
      · rw [if_neg hth]
        exact ⟨lookupA_mapInsert_ne cache _ hne,
          fun p hp => (List.not_mem_nil (u, p)) hp⟩

theorem runTick_other (probe : String → ProbeOutcome) (restartOk : String → Bool)
    (cache : List (String × Nat)) (instances : List Instance) {u : String}
    (h : u ∉ instances.map Instance.username) :
    lookupA (runTick probe restartOk cache instances).1 u = lookupA cache u ∧
    ∀ p, (u, p) ∉ (runTick probe restartOk cache instances).2 := by
  induction instances generalizing cache with
  | nil => exact ⟨rfl, fun p hp => (List.not_mem_nil (u, p)) hp⟩
  | cons j rest ih =>
    rw [List.map_cons, List.mem_cons] at h
    push_neg at h
    have hj : j.username ≠ u := fun hc => h.1 hc.symm
    have hstep := tickStep_other probe restartOk cache j hj
    have hrest := ih (tickStep probe restartOk cache j).1 h.2
    rw [runTick]
    refine ⟨hrest.1.trans hstep.1, fun p hp => ?_⟩
    rcases List.mem_append.mp hp with hp | hp
    · exact hstep.2 p hp
    · exact hrest.2 p hp

/-- C6: on a health-monitor tick over an instance-table snapshot with
pairwise-distinct usernames, for every record in state `Running` — for every
probe oracle and EVERY restart outcome oracle — if the probe set passes, the
record's `consecutive_failures` is reset to 0 and no restart of it is
invoked; if the set fails and the incremented count reaches 3, a restart of
that username with the record's own port is invoked and the count is reset to
0 regardless of the restart outcome; if the set fails below the threshold,
the count is the increment of its previous value and no restart is invoked.
A missing cache entry counts as 0 (`or_insert`). -/
theorem health_tick_failure_counting (probe : String → ProbeOutcome)
    (restartOk : String → Bool) (cache : List (String × Nat))
    (instances : List Instance) (i : Instance)
    (hnd : (instances.map Instance.username).Nodup)
    (hmem : i ∈ instances) (hrun : i.status = InstanceStatus.Running) :
    (allPassed probe i = true →
      lookupA (runTick probe restartOk cache instances).1 i.username = some 0 ∧
      ∀ p, (i.username, p) ∉ (runTick probe restartOk cache instances).2) ∧
    (allPassed probe i = false →
      (lookupA cache i.username).getD 0 + 1 ≥ 3 →
      lookupA (runTick probe restartOk cache instances).1 i.username = some 0 ∧
      (i.username, i.port) ∈ (runTick probe restartOk cache instances).2) ∧
    (allPassed probe i = false →
      (lookupA cache i.username).getD 0 + 1 < 3 →
      lookupA (runTick probe restartOk cache instances).1 i.username =
        some ((lookupA cache i.username).getD 0 + 1) ∧
      ∀ p, (i.username, p) ∉ (runTick probe restartOk cache instances).2) := by
  induction instances generalizing cache with
  | nil => cases hmem
  | cons j rest ih =>
    rw [List.map_cons, List.nodup_cons] at hnd
    obtain ⟨hj, hndr⟩ := hnd
    rcases List.mem_cons.mp hmem with rfl | hmem'
    · have hstep : tickStep probe restartOk cache i =
          (if allPassed probe i then (mapInsert i.username 0 cache, [])
           else if (lookupA cache i.username).getD 0 + 1 ≥ 3 then
             (mapInsert i.username 0 cache, [(i.username, i.port)])
           else
             (mapInsert i.username ((lookupA cache i.username).getD 0 + 1) cache,
              [])) := by
        unfold tickStep
        rw [if_neg (by simp [hrun])]
      rw [runTick, hstep]
      refine ⟨fun hpass => ?_, fun hfail hth => ?_, fun hfail hth => ?_⟩
      · rw [if_pos hpass]
        have hrest := runTick_other probe restartOk
          (mapInsert i.username 0 cache) rest hj
        refine ⟨hrest.1.trans (lookupA_mapInsert_self cache i.username 0),
          fun p hp => ?_⟩
        rcases List.mem_append.mp hp with hp | hp
        · exact (List.not_mem_nil (i.username, p)) hp
        · exact hrest.2 p hp
      · rw [if_neg (by simp [hfail]), if_pos hth]
        have hrest := runTick_other probe restartOk
          (mapInsert i.username 0 cache) rest hj
        refine ⟨hrest.1.trans (lookupA_mapInsert_self cache i.username 0), ?_⟩
        exact List.mem_append.mpr (Or.inl (List.mem_singleton.mpr rfl))
      · rw [if_neg (by simp [hfail]), if_neg (by omega)]
        have hrest := runTick_other probe restartOk
          (mapInsert i.username ((lookupA cache i.username).getD 0 + 1) cache)
          rest hj
        refine ⟨hrest.1.trans (lookupA_mapInsert_self cache i.username _),
          fun p hp => ?_⟩
        rcases List.mem_append.mp hp with hp | hp
        · exact (List.not_mem_nil (i.username, p)) hp
        · exact hrest.2 p hp
    · have hji : j.username ≠ i.username := fun he =>
        hj (he ▸ List.mem_map_of_mem Instance.username hmem')
      have hstep := tickStep_other probe restartOk cache j hji
      have hprev : lookupA (tickStep probe restartOk cache j).1 i.username =
          lookupA cache i.username := hstep.1
      have hrec := ih (tickStep probe restartOk cache j).1 hndr hmem'
      rw [runTick]
      rw [hprev] at hrec
      refine ⟨fun hpass => ?_, fun hfail hth => ?_, fun hfail hth => ?_⟩
      · refine ⟨(hrec.1 hpass).1, fun p hp => ?_⟩
        rcases List.mem_append.mp hp with hp | hp
        · exact hstep.2 p hp
        · exact (hrec.1 hpass).2 p hp
      · exact ⟨(hrec.2.1 hfail hth).1,
          List.mem_append.mpr (Or.inr (hrec.2.1 hfail hth).2)⟩
      · refine ⟨(hrec.2.2 hfail hth).1, fun p hp => ?_⟩
        rcases List.mem_append.mp hp with hp | hp
        · exact hstep.2 p hp
        · exact (hrec.2.2 hfail hth).2 p hp

/-- Witness for C6: `alice` is `Running` with two prior consecutive failures;
all three probes fail on this tick, so the count reaches 3, a restart
`(alice, 30001)` is recorded, and the cache entry is reset to 0 — under a
restart oracle that reports failure. -/
theorem health_tick_failure_counting_witness :
    lookupA (runTick (fun _ => ⟨false, false, false⟩) (fun _ => false)
        [("alice", 2)]
        [⟨"alice", 30001, InstanceStatus.Running, some 42, some 0⟩]).1
      "alice" = some 0 ∧
    ("alice", 30001) ∈ (runTick (fun _ => ⟨false, false, false⟩) (fun _ => false)
        [("alice", 2)]
        [⟨"alice", 30001, InstanceStatus.Running, some 42, some 0⟩]).2 :=
  (health_tick_failure_counting (fun _ => ⟨false, false, false⟩) (fun _ => false)
    [("alice", 2)]
    [⟨"alice", 30001, InstanceStatus.Running, some 42, some 0⟩]
    ⟨"alice", 30001, InstanceStatus.Running, some 42, some 0⟩
    (by decide) (List.mem_singleton.mpr rfl) rfl).2.1 (by decide) (by decide)

end Frame
